import Mathlib

/-!
Verification development for the joule-pool solo Bitcoin mining pool.

The Python sources (`stratum.py`, `difficulty_adjuster.py`, `mining_utils.py`,
`pool_stats.py`) are shallowly embedded below: bytes are `List Nat` with each
element in `[0, 255]`, Python ints are `Nat`/`Int`, and Python floats used for
difficulties and timestamps are modelled as `ℚ` (all arithmetic the pool does
on them — multiply/divide by 2, clamping against 0.01 and 1000000 — is exact
in binary64 at the values exercised by the theorems, so `ℚ` is faithful
there).  Fallible Python code (exceptions) is modelled with `Option`.
-/

namespace JoulePool

/-! ## Byte-level helpers (struct.pack / int.from_bytes equivalents) -/

/-- Bytes of `struct.pack('<I', n)`: 4-byte little-endian encoding.
`struct.pack` requires `n < 2^32`; callers below meet that. -/
def u32LE (n : Nat) : List Nat :=
  [n % 256, n / 2 ^ 8 % 256, n / 2 ^ 16 % 256, n / 2 ^ 24 % 256]

/-- Bytes of `struct.pack('<Q', n)`: 8-byte little-endian encoding. -/
def u64LE (n : Nat) : List Nat :=
  [n % 256, n / 2 ^ 8 % 256, n / 2 ^ 16 % 256, n / 2 ^ 24 % 256,
   n / 2 ^ 32 % 256, n / 2 ^ 40 % 256, n / 2 ^ 48 % 256, n / 2 ^ 56 % 256]

/-- Python `int.from_bytes(bs, byteorder='little')`. -/
def leBytesToNat (bs : List Nat) : Nat :=
  bs.foldr (fun b acc => b + 256 * acc) 0

/-! ## SHA-256 (the `hashlib.sha256` the sources call), FIPS 180-4 -/

/-- Right rotation of a 32-bit word. -/
def rotr (n x : Nat) : Nat :=
  ((x >>> n) ||| (x <<< (32 - n))) % 2 ^ 32

def bsig0 (x : Nat) : Nat := rotr 2 x ^^^ rotr 13 x ^^^ rotr 22 x

def bsig1 (x : Nat) : Nat := rotr 6 x ^^^ rotr 11 x ^^^ rotr 25 x

def ssig0 (x : Nat) : Nat := rotr 7 x ^^^ rotr 18 x ^^^ (x >>> 3)

def ssig1 (x : Nat) : Nat := rotr 17 x ^^^ rotr 19 x ^^^ (x >>> 10)

def chf (x y z : Nat) : Nat := (x &&& y) ^^^ ((2 ^ 32 - 1 - x) &&& z)

def majf (x y z : Nat) : Nat := (x &&& y) ^^^ (x &&& z) ^^^ (y &&& z)

/-- The 64 SHA-256 round constants (FIPS 180-4 section 4.2.2, in decimal). -/
def shaK : List Nat :=
  [1116352408, 1899447441, 3049323471, 3921009573, 961987163, 1508970993,
   2453635748, 2870763221, 3624381080, 310598401, 607225278, 1426881987,
   1925078388, 2162078206, 2614888103, 3248222580, 3835390401, 4022224774,
   264347078, 604807628, 770255983, 1249150122, 1555081692, 1996064986,
   2554220882, 2821834349, 2952996808, 3210313671, 3336571891, 3584528711,
   113926993, 338241895, 666307205, 773529912, 1294757372, 1396182291,
   1695183700, 1986661051, 2177026350, 2456956037, 2730485921, 2820302411,
   3259730800, 3345764771, 3516065817, 3600352804, 4094571909, 275423344,
   430227734, 506948616, 659060556, 883997877, 958139571, 1322822218,
   1537002063, 1747873779, 1955562222, 2024104815, 2227730452, 2361852424,
   2428436474, 2756734187, 3204031479, 3329325298]

/-- The SHA-256 initial hash value (FIPS 180-4 section 5.3.3, in decimal). -/
def shaH0 : List Nat :=
  [1779033703, 3144134277, 1013904242, 2773480762,
   1359893119, 2600822924, 528734635, 1541459225]

/-- Group a byte list into 32-bit big-endian words. -/
def wordsOfBytesBE : List Nat → List Nat
  | b0 :: b1 :: b2 :: b3 :: rest =>
      (b0 * 2 ^ 24 + b1 * 2 ^ 16 + b2 * 2 ^ 8 + b3) :: wordsOfBytesBE rest
  | _ => []

/-- Extend the 16 message words to the 64-entry message schedule. -/
def schedule (w16 : List Nat) : List Nat :=
  (List.range 48).foldl
    (fun w i =>
      w ++ [(ssig1 (w.getD (i + 14) 0) + w.getD (i + 9) 0 +
             ssig0 (w.getD (i + 1) 0) + w.getD i 0) % 2 ^ 32])
    w16

/-- The eight SHA-256 working variables. -/
structure Sha8 where
  a : Nat
  b : Nat
  c : Nat
  d : Nat
  e : Nat
  f : Nat
  g : Nat
  hv : Nat

/-- One SHA-256 round. -/
def compressStep (s : Sha8) (kw : Nat × Nat) : Sha8 :=
  let t1 := (s.hv + bsig1 s.e + chf s.e s.f s.g + kw.1 + kw.2) % 2 ^ 32
  let t2 := (bsig0 s.a + majf s.a s.b s.c) % 2 ^ 32
  ⟨(t1 + t2) % 2 ^ 32, s.a, s.b, s.c, (s.d + t1) % 2 ^ 32, s.e, s.f, s.g⟩

/-- Compress one 64-byte block into the running hash state. -/
def compressBlock (hs : List Nat) (block : List Nat) : List Nat :=
  let w := schedule (wordsOfBytesBE block)
  let s0 : Sha8 := ⟨hs.getD 0 0, hs.getD 1 0, hs.getD 2 0, hs.getD 3 0,
                    hs.getD 4 0, hs.getD 5 0, hs.getD 6 0, hs.getD 7 0⟩
  let s := (shaK.zip w).foldl compressStep s0
  [(hs.getD 0 0 + s.a) % 2 ^ 32, (hs.getD 1 0 + s.b) % 2 ^ 32,
   (hs.getD 2 0 + s.c) % 2 ^ 32, (hs.getD 3 0 + s.d) % 2 ^ 32,
   (hs.getD 4 0 + s.e) % 2 ^ 32, (hs.getD 5 0 + s.f) % 2 ^ 32,
   (hs.getD 6 0 + s.g) % 2 ^ 32, (hs.getD 7 0 + s.hv) % 2 ^ 32]

/-- 8-byte big-endian encoding of the bit length. -/
def be8 (n : Nat) : List Nat :=
  [n / 2 ^ 56 % 256, n / 2 ^ 48 % 256, n / 2 ^ 40 % 256, n / 2 ^ 32 % 256,
   n / 2 ^ 24 % 256, n / 2 ^ 16 % 256, n / 2 ^ 8 % 256, n % 256]

/-- 4-byte big-endian encoding of a word. -/
def be4 (w : Nat) : List Nat :=
  [w / 2 ^ 24 % 256, w / 2 ^ 16 % 256, w / 2 ^ 8 % 256, w % 256]

/-- SHA-256 padding: `0x80`, zeros to 56 mod 64, then the 64-bit bit count. -/
def padMessage (msg : List Nat) : List Nat :=
  msg ++ [0x80] ++ List.replicate ((119 - msg.length % 64) % 64) 0
      ++ be8 (8 * msg.length)

/-- Split a byte list into 64-byte chunks.  Structural recursion on a fuel
counter so the kernel can evaluate it; each step consumes at least one
byte, so fuel equal to the list length always suffices. -/
def chunks64F : Nat → List Nat → List (List Nat)
  | 0, _ => []
  | _, [] => []
  | fuel + 1, b :: t => ((b :: t).take 64) :: chunks64F fuel ((b :: t).drop 64)

/-- Split a byte list into 64-byte chunks. -/
def chunks64 (bs : List Nat) : List (List Nat) :=
  chunks64F bs.length bs

/-- `hashlib.sha256(msg).digest()` as a 32-entry byte list. -/
def sha256 (msg : List Nat) : List Nat :=
  (((chunks64 (padMessage msg)).foldl compressBlock shaH0).map be4).foldr
    (· ++ ·) []

/-- `hashlib.sha256(hashlib.sha256(x).digest()).digest()`, used throughout
the sources for transaction ids, Merkle nodes and the header hash. -/
def double_sha256 (msg : List Nat) : List Nat :=
  sha256 (sha256 msg)

/-! ## Coinbase construction (`StratumFactory.create_coinbase_tx`) -/

/-- The factory's default `coinbase_message = b"Python Solo Mining Pool"`. -/
def defaultCoinbaseMessage : List Nat :=
  "Python Solo Mining Pool".toList.map Char.toNat

/-- `StratumFactory.create_coinbase_tx(height, coinbase_value)`, the serialized
coinbase transaction bytes.  Field by field from the source: version 1,
one input with null previous-output hash (32 zero bytes) and index
`0xFFFFFFFF`, a one-byte script length covering
`pack('<I', height) ++ coinbase_message` plus 8 extranonce placeholder
bytes, the script itself ending in those 8 zero bytes, sequence
`0xFFFFFFFF`, one output paying `coinbase_value` to a stub P2PKH script,
and locktime 0.  (`struct.pack('<B', script_len)` requires the script
length to fit a byte; it does for every message used below.) -/
def create_coinbase_tx (coinbase_message : List Nat) (height coinbase_value : Nat) :
    List Nat :=
  let height_script := u32LE height ++ coinbase_message
  let script_len := height_script.length + 8
  let pk_script : List Nat :=
    [0x76, 0xa9, 0x14] ++ List.replicate 20 0 ++ [0x88, 0xac]
  u32LE 1 ++
  [1] ++
  List.replicate 32 0 ++
  u32LE 0xFFFFFFFF ++
  [script_len % 256] ++
  height_script ++
  List.replicate 8 0 ++
  u32LE 0xFFFFFFFF ++
  [1] ++
  u64LE coinbase_value ++
  [pk_script.length % 256] ++
  pk_script ++
  u32LE 0

/-- The hash `create_coinbase_tx` returns alongside the bytes. -/
def create_coinbase_tx_hash (coinbase_message : List Nat)
    (height coinbase_value : Nat) : List Nat :=
  double_sha256 (create_coinbase_tx coinbase_message height coinbase_value)

/-- Python `coinbase_tx.find(b'\x00'*8)`: the least index at which the
8-zero-byte pattern occurs as a full substring, `none` for Python's `-1`.
Both `process_submission` and `send_job_to_client` locate the extranonce
splice point with exactly this call. -/
def find8Zeros : List Nat → Option Nat
  | [] => none
  | b :: t =>
    if (b :: t).take 8 = List.replicate 8 0 then some 0
    else (find8Zeros t).map (· + 1)

/-- The coinbase with `extranonce1 ++ extranonce2` spliced over the 8 bytes
at position `pos`, as `process_submission` builds it:
`coinbase_tx[:pos] + extranonce1_bin + extranonce2_bin + coinbase_tx[pos+8:]`. -/
def spliceExtranonce (coinbase : List Nat) (pos : Nat)
    (extranonce1 extranonce2 : List Nat) : List Nat :=
  coinbase.take pos ++ extranonce1 ++ extranonce2 ++ coinbase.drop (pos + 8)

/-! ## Merkle computations (`calculate_merkle_branches`,
`mining_utils.calculate_merkle_root`, and the fold in
`process_submission`) -/

/-- One Merkle level: combine consecutive pairs with double SHA-256
(the `for i in range(0, len, 2)` loop body). -/
def merklePairs : List (List Nat) → List (List Nat)
  | a :: b :: rest => double_sha256 (a ++ b) :: merklePairs rest
  | _ => []

/-- `if len(merkle_tree) % 2 == 1: merkle_tree.append(merkle_tree[-1])`. -/
def dupIfOdd (tree : List (List Nat)) : List (List Nat) :=
  if tree.length % 2 = 1 then tree ++ tree.drop (tree.length - 1) else tree

/-- The `while len(merkle_tree) > 1` loop of `calculate_merkle_branches`:
returns the branches it appends (in order) and the final root.  At each
level the last element is duplicated when the level is odd, the element at
index 1 is emitted as a branch only when more than two elements remain
(this is the level condition the source writes as
`if len(merkle_tree) > 2`), and the level is pair-combined.  Structural
recursion on fuel so the kernel can evaluate it; every iteration at least
halves the level, so fuel equal to the initial length always suffices. -/
def merkleBranchLoopF : Nat → List (List Nat) → List (List Nat) × List Nat
  | 0, tree => ([], tree.headD [])
  | fuel + 1, tree =>
    if tree.length ≤ 1 then ([], tree.headD [])
    else
      let t' := dupIfOdd tree
      let br := if 2 < t'.length then [t'.getD 1 []] else []
      let rest := merkleBranchLoopF fuel (merklePairs t')
      (br ++ rest.1, rest.2)

/-- The branch-and-root loop run to completion on its input level. -/
def merkleBranchLoop (tree : List (List Nat)) : List (List Nat) × List Nat :=
  merkleBranchLoopF tree.length tree

/-- `StratumFactory.calculate_merkle_branches(coinbase_hash, tx_hashes)`:
with no transactions it returns `([], coinbase_hash)`; otherwise it runs
the level loop over `[coinbase_hash] ++ tx_hashes`. -/
def calculate_merkle_branches (coinbase_hash : List Nat)
    (tx_hashes : List (List Nat)) : List (List Nat) × List Nat :=
  if tx_hashes = [] then ([], coinbase_hash)
  else merkleBranchLoop (coinbase_hash :: tx_hashes)

/-- `mining_utils.calculate_merkle_root`, on bytes instead of hex strings,
with a structural fuel counter (each level at least halves the list, so
fuel equal to the list length always suffices). -/
def calculate_merkle_rootF : Nat → List (List Nat) → Option (List Nat)
  | 0, _ => none
  | _, [] => none
  | _, [x] => some x
  | fuel + 1, x :: y :: rest =>
    calculate_merkle_rootF fuel (merklePairs (dupIfOdd (x :: y :: rest)))

/-- The classic duplicated-last-on-odd Merkle tree recomputed from scratch;
`none` for the empty list (the source returns `None`). -/
def calculate_merkle_root (leaves : List (List Nat)) : Option (List Nat) :=
  calculate_merkle_rootF leaves.length leaves

/-- The Merkle-root fold of `process_submission`:
`merkle_root = coinbase_hash; for branch in branches: merkle_root =
double_sha256(merkle_root + branch)`. -/
def merkleFold (coinbase_hash : List Nat) (branches : List (List Nat)) :
    List Nat :=
  branches.foldl (fun acc b => double_sha256 (acc ++ b)) coinbase_hash

/-! ## Targets -/

/-- The difficulty-1 target constant of `process_submission`. -/
def diff1_target : Nat :=
  0x00000000FFFF0000000000000000000000000000000000000000000000000000

/-- `share_target = int(diff1_target / difficulty)` from `process_submission`:
Python's `int()` truncates the quotient toward zero, which on the exact
rational `diff1_target / difficulty` is `tdiv` of the cross-multiplied
numerator and denominator.  (Python performs the division in binary64; at
the difficulties the theorems below use — 1 against the 16-bit-mantissa
`diff1_target` — it is exact, so the rational form is faithful there.) -/
def share_target (difficulty : ℚ) : ℤ :=
  ((diff1_target : ℤ) * (difficulty.den : ℤ)).tdiv difficulty.num

/-- `mining_utils.bits_to_target`: exponent and mantissa are split out of the
compact word, the mantissa is clamped to `0x7FFFFF`, and the target is
`mant << (8*(exp-3))`.  For `exp < 3` Python evaluates `1 << negative` and
raises `ValueError`; that is the `none` case. -/
def bits_to_target_mu (bits : Nat) : Option Nat :=
  let exp := bits >>> 24
  let mant := bits &&& 0xFFFFFF
  let mant := if mant > 0x7FFFFF then 0x7FFFFF else mant
  if exp < 3 then none
  else some (mant * (1 <<< (8 * (exp - 3))))

/-- `stratum.bits_to_target`: decodes its argument with
`int.from_bytes(bits, byteorder='little')` and applies NO mantissa clamp.
For `exp < 3` Python's `2 ** negative` produces a float, so the result type
is `ℚ` (exact for these powers of two). -/
def bits_to_target_stratum (bits : List Nat) : ℚ :=
  let bits_int := leBytesToNat bits
  let exponent := bits_int >>> 24
  let mantissa := bits_int &&& 0xFFFFFF
  (mantissa : ℚ) * (2 : ℚ) ^ (8 * ((exponent : ℤ) - 3))

/-- Modelled from the spec: the formula the claim states for
`bits_to_target` — `mant' * 2^(8*(exp-3))` with `mant' = min mant 0x7FFFFF`
(stated for `exp ≥ 3`, where the power is a natural number). -/
def bits_to_target_claim (bits : Nat) : Nat :=
  min (bits &&& 0xFFFFFF) 0x7FFFFF * 2 ^ (8 * ((bits >>> 24) - 3))

/-! ## Jobs and the share validator (`StratumFactory.process_submission`) -/

/-- A stored mining job, the dictionary `create_mining_job` builds:
`prev_hash` holds `binascii.unhexlify(job['prev_block_hash'])` and
`transactions` the serialized non-coinbase transaction bodies. -/
structure Job where
  version : Nat
  prev_hash : List Nat
  coinbase : List Nat
  merkle_branches : List (List Nat)
  bits : Nat
  height : Nat
  transactions : List (List Nat)
deriving DecidableEq

/-- `self.current_jobs.get(job_id)`: association-list lookup. -/
def lookupJob (jobs : List (String × Job)) (job_id : String) : Option Job :=
  (jobs.find? (fun pr => pr.1 == job_id)).map (·.2)

/-- The 80-byte header `process_submission` assembles for a submission:
splice the extranonces into the coinbase at the first 8-zero-byte run, fold
the stored Merkle branches into the coinbase hash, and concatenate
`version_LE ++ prev_hash ++ merkle_root ++ time ++ bits_LE ++ nonce`.
`none` when the placeholder search fails. -/
def submissionHeader (job : Job) (extranonce1 extranonce2 time_bin nonce_bin :
    List Nat) : Option (List Nat) :=
  (find8Zeros job.coinbase).map fun pos =>
    let cbx := spliceExtranonce job.coinbase pos extranonce1 extranonce2
    let root := merkleFold (double_sha256 cbx) job.merkle_branches
    u32LE job.version ++ job.prev_hash ++ root ++ time_bin ++
      u32LE job.bits ++ nonce_bin

/-- `hash_int = int.from_bytes(hash_block_header(header), byteorder='little')`. -/
def headerHashInt (header : List Nat) : Nat :=
  leBytesToNat (double_sha256 header)

/-- The share-target test of `process_submission` (lines 740-756):
`valid_share = hash_int <= share_target`.  `false` also when the
placeholder is missing (the code errors out before hashing then). -/
def share_meets_target (job : Job)
    (extranonce1 extranonce2 time_bin nonce_bin : List Nat)
    (difficulty : ℚ) : Bool :=
  match submissionHeader job extranonce1 extranonce2 time_bin nonce_bin with
  | none => false
  | some header => decide ((headerHashInt header : ℤ) ≤ share_target difficulty)

/-- The outcomes of `process_submission` relevant to the claims.  The
network-target branch is not modelled: the `stratum.py` copy of
`bits_to_target` is called there on the integer `job['bits']` and raises
`TypeError`, so the code can never reach the block path; the claims here
concern the job lookup and the share-target comparison, both of which
happen before that line. -/
inductive SubmissionOutcome where
  | job_not_found
  | placeholder_missing
  | share_accepted
  | share_rejected
deriving DecidableEq

/-- The control flow of `process_submission` up to the share-target test:
unknown `job_id` fails first, before any splicing or hashing. -/
def process_submission_check (jobs : List (String × Job)) (job_id : String)
    (extranonce1 extranonce2 time_bin nonce_bin : List Nat)
    (difficulty : ℚ) : SubmissionOutcome :=
  match lookupJob jobs job_id with
  | none => .job_not_found
  | some job =>
    match find8Zeros job.coinbase with
    | none => .placeholder_missing
    | some _ =>
      if share_meets_target job extranonce1 extranonce2 time_bin nonce_bin
          difficulty
      then .share_accepted else .share_rejected

/-! ## Statistics (`PoolStats.add_share`) -/

/-- The `{'valid', 'invalid', 'stale'}` counter triple. -/
structure ShareCounters where
  valid : Nat
  invalid : Nat
  stale : Nat
deriving DecidableEq

/-- A per-worker statistics record (the fields the claims mention). -/
structure WorkerRecord where
  shares : ShareCounters
  difficulty : ℚ
deriving DecidableEq

/-- Association-list update used to model the `self.clients` dict. -/
def updateWorker (ws : List (String × WorkerRecord)) (name : String)
    (f : WorkerRecord → WorkerRecord) : List (String × WorkerRecord) :=
  ws.map fun pr => if pr.1 == name then (pr.1, f pr.2) else pr

/-- `PoolStats.add_share(worker_name, valid, stale, difficulty)`: a valid
non-stale share bumps the pool and worker valid counters (creating the
worker record on first sight) and records the difficulty; stale bumps the
stale counters; anything else bumps the invalid counters.  Absent workers
are only created on the valid path, as in the source. -/
def add_share (pool : ShareCounters) (workers : List (String × WorkerRecord))
    (worker : String) (valid stale : Bool) (difficulty : ℚ) :
    ShareCounters × List (String × WorkerRecord) :=
  if valid && !stale then
    let ws0 := if (workers.find? (fun pr => pr.1 == worker)).isNone
      then workers ++ [(worker, ⟨⟨0, 0, 0⟩, difficulty⟩)] else workers
    ({ pool with valid := pool.valid + 1 },
     updateWorker ws0 worker fun w =>
       ⟨{ w.shares with valid := w.shares.valid + 1 }, difficulty⟩)
  else if stale then
    ({ pool with stale := pool.stale + 1 },
     updateWorker workers worker fun w =>
       ⟨{ w.shares with stale := w.shares.stale + 1 }, w.difficulty⟩)
  else
    ({ pool with invalid := pool.invalid + 1 },
     updateWorker workers worker fun w =>
       ⟨{ w.shares with invalid := w.shares.invalid + 1 }, w.difficulty⟩)

/-! ## Difficulty adjuster (`difficulty_adjuster.py`)

The adjuster's dictionaries are keyed by client id and each operation
touches only the entry of the client it concerns (`check_inactive_clients`
iterates over all entries but adjusts each one from its own record only),
so the per-client record below is the whole relevant state. -/

/-- The `DifficultyAdjuster.__init__` parameters. -/
structure AdjParams where
  initial_difficulty : ℚ
  target_share_time : ℚ
  min_difficulty : ℚ
  max_difficulty : ℚ
  variance_percent : ℚ
  adjustment_factor : ℚ
  no_share_timeout : ℚ
deriving DecidableEq

/-- The parameters `StratumFactory.__init__` constructs the adjuster with:
target 10 s, bounds `[0.01, 1000000]`, and the class defaults
`variance_percent=30`, `adjustment_factor=2`, `no_share_timeout=30`. -/
def poolAdjParams (initial : ℚ) : AdjParams :=
  ⟨initial, 10, 1 / 100, 1000000, 30, 2, 30⟩

/-- One client's adjuster record: its `client_difficulties` entry (absent =
`none`) and its `client_share_times` deque, oldest first. -/
structure AdjClient where
  diff : Option ℚ
  times : List ℚ
deriving DecidableEq

/-- A client that has never been seen. -/
def AdjClient.empty : AdjClient := ⟨none, []⟩

/-- Append to a `deque(maxlen=10)`: the oldest entries drop off the left. -/
def pushTime (ts : List ℚ) (t : ℚ) : List ℚ :=
  let l := ts ++ [t]
  l.drop (l.length - 10)

/-- `share_times[-1]`; only meaningful on a nonempty list. -/
def lastTime (ts : List ℚ) : ℚ := ts.getLast?.getD 0

/-- `DifficultyAdjuster._check_adjust_difficulty`: variance band around the
target interval; an increase needs `Δ < lower ∧ Δ ≤ 10` and multiplies by
the adjustment factor capped at the maximum; a decrease needs `Δ > upper`
and divides floored at the minimum; a capped/floored no-op falls through
to `(False, current)`. -/
def check_adjust_difficulty (p : AdjParams) (c : AdjClient) (dt : ℚ) :
    Bool × ℚ × AdjClient :=
  let cur := c.diff.getD p.initial_difficulty
  let variance := p.target_share_time * (p.variance_percent / 100)
  let lower := p.target_share_time - variance
  let upper := p.target_share_time + variance
  if dt < lower ∧ dt ≤ 10 then
    let nd := min (cur * p.adjustment_factor) p.max_difficulty
    if nd ≠ cur then (true, nd, { c with diff := some nd }) else (false, cur, c)
  else if dt > upper then
    let nd := max (cur / p.adjustment_factor) p.min_difficulty
    if nd ≠ cur then (true, nd, { c with diff := some nd }) else (false, cur, c)
  else (false, cur, c)

/-- `DifficultyAdjuster.record_share(client, t)`: install the initial
difficulty for unseen clients, record the share time, and — only when the
time since the previous share is at most 5 seconds — run the adjustment
check; a first share or a gap above 5 seconds changes nothing. -/
def record_share (p : AdjParams) (t : ℚ) (c : AdjClient) :
    Bool × ℚ × AdjClient :=
  let diff0 := c.diff.getD p.initial_difficulty
  match c.times with
  | [] => (false, diff0, ⟨some diff0, pushTime c.times t⟩)
  | _ :: _ =>
    let dt := t - lastTime c.times
    let c2 : AdjClient := ⟨some diff0, pushTime c.times t⟩
    if dt ≤ 5 then check_adjust_difficulty p c2 dt
    else (false, diff0, c2)

/-- `DifficultyAdjuster.suggest_difficulty(client, d)`: clamp into the
configured bounds and install unconditionally; `changed` compares against
the previous (or initial) value. -/
def suggest_difficulty (p : AdjParams) (d : ℚ) (c : AdjClient) :
    Bool × ℚ × AdjClient :=
  let capped := max (min d p.max_difficulty) p.min_difficulty
  let old := c.diff.getD p.initial_difficulty
  (old ≠ capped, capped, ⟨some capped, c.times⟩)

/-- The effect of one `DifficultyAdjuster.check_inactive_clients()` sweep on
one client at time `now`: with no recorded shares the entry is skipped;
otherwise a client silent for longer than `no_share_timeout` whose
difficulty is above the minimum is halved, floored at the minimum.
(The source reads `client_difficulties[client_id]` directly; in every state
the adjuster builds, a client with recorded share times also has a
difficulty entry, which `getD` reproduces.) -/
def check_inactive_client (p : AdjParams) (now : ℚ) (c : AdjClient) :
    AdjClient :=
  match c.times with
  | [] => c
  | _ :: _ =>
    if now - lastTime c.times > p.no_share_timeout then
      let cur := c.diff.getD p.initial_difficulty
      if cur > p.min_difficulty then
        ⟨some (max (cur / 2) p.min_difficulty), c.times⟩
      else c
    else c

/-- `DifficultyAdjuster.get_difficulty(client)`. -/
def get_difficulty (p : AdjParams) (c : AdjClient) : ℚ :=
  c.diff.getD p.initial_difficulty

/-- One adjuster call affecting a client, for sequencing claims. -/
inductive AdjOp where
  | record (t : ℚ)
  | suggest (d : ℚ)
  | sweep (now : ℚ)

/-- Run one adjuster call on a client record. -/
def applyOp (p : AdjParams) (c : AdjClient) : AdjOp → AdjClient
  | .record t => (record_share p t c).2.2
  | .suggest d => (suggest_difficulty p d c).2.2
  | .sweep now => check_inactive_client p now c

/-- Run a finite sequence of adjuster calls on a client record. -/
def applyOps (p : AdjParams) (c : AdjClient) (ops : List AdjOp) : AdjClient :=
  ops.foldl (applyOp p) c

/-! ## Protocol handlers (`StratumProtocol`) -/

/-- A JSON-RPC reply: `send_result(id, True)` or `send_error(id, code, msg)`. -/
inductive Reply where
  | ok
  | err (code : Int)
deriving DecidableEq

/-- Whether a reply is a JSON-RPC error. -/
def Reply.isErr : Reply → Bool
  | .ok => false
  | .err _ => true

/-- The share-related state a `mining.submit` can touch: the job registry
(which `handle_submit` never consults), the pool and per-worker counters,
the submitting client's adjuster record, and the session difficulty. -/
structure SubmitState where
  jobs : List (String × Job)
  poolShares : ShareCounters
  workers : List (String × WorkerRecord)
  adj : AdjClient
  sessionDifficulty : ℚ
deriving DecidableEq

/-- `StratumProtocol.handle_submit(message_id, params)` at wall-clock `now`:
reject unauthorized sessions with `-32500` and short parameter lists with
`-32602`, both without touching any state; otherwise record the share time
(possibly raising the session difficulty), count the share as VALID in the
statistics, and reply `True` — the source never calls
`process_submission`, its comment reads "Always accept shares for
testing".  (Replies model `send_result`/`send_error` with a non-null id.) -/
def handle_submit (p : AdjParams) (now : ℚ) (authorized : Bool)
    (params : List String) (st : SubmitState) : Reply × SubmitState :=
  if !authorized then (.err (-32500), st)
  else if params.length < 5 then (.err (-32602), st)
  else
    let worker := params.getD 0 ""
    let rs := record_share p now st.adj
    let sdiff := if rs.1 then rs.2.1 else st.sessionDifficulty
    let updated := add_share st.poolShares st.workers worker true false sdiff
    (.ok, { st with poolShares := updated.1, workers := updated.2,
                    adj := rs.2.2, sessionDifficulty := sdiff })

/-- What `StratumProtocol.handle_suggest_difficulty` produces: the reply,
the `mining.set_difficulty` values pushed, and the updated session
difficulty and adjuster record. -/
structure SuggestOutcome where
  reply : Reply
  notices : List ℚ
  sessionDifficulty : ℚ
  adj : AdjClient
deriving DecidableEq

/-- `StratumProtocol.handle_suggest_difficulty(message_id, params)`: with a
numeric suggestion present, the source logs it, then OVERRIDES it with
`0.01` ("Override with a much lower difficulty for testing"), feeds that
to the adjuster, and pushes `mining.set_difficulty` only when the stored
value changed; the reply is always `True`. -/
def handle_suggest_difficulty (p : AdjParams) (params : List ℚ)
    (sessionDiff : ℚ) (c : AdjClient) : SuggestOutcome :=
  match params with
  | [] => ⟨.ok, [], sessionDiff, c⟩
  | _ :: _ =>
    let suggested : ℚ := 1 / 100
    let r := suggest_difficulty p suggested c
    if r.1 then ⟨.ok, [r.2.1], r.2.1, r.2.2⟩
    else ⟨.ok, [], sessionDiff, r.2.2⟩

/-- Modelled from the spec: the clamp `mining.suggest_difficulty` is claimed
to apply to the suggested value `d`. -/
def clampDifficulty (p : AdjParams) (d : ℚ) : ℚ :=
  max (min d p.max_difficulty) p.min_difficulty

/-! ## Spec-side models for the adjuster claims -/

/-- Modelled from the spec (the claimed `record_share` behavior): the first
share stores the timestamp and makes no change; otherwise with
`Δ = t − last`, `Δ < T*(1−v)` and `Δ ≤ 10` multiplies the difficulty by
the adjustment factor capped at the maximum, `Δ > T*(1+v)` divides it
floored at the minimum, and anything else changes nothing. -/
def record_share_claimspec (p : AdjParams) (t : ℚ) (c : AdjClient) :
    Bool × ℚ × AdjClient :=
  let cur := c.diff.getD p.initial_difficulty
  match c.times with
  | [] => (false, cur, ⟨c.diff, pushTime c.times t⟩)
  | _ :: _ =>
    let dt := t - lastTime c.times
    let lower := p.target_share_time * (1 - p.variance_percent / 100)
    let upper := p.target_share_time * (1 + p.variance_percent / 100)
    if dt < lower ∧ dt ≤ 10 then
      let nd := min (cur * p.adjustment_factor) p.max_difficulty
      (nd ≠ cur, nd, ⟨some nd, pushTime c.times t⟩)
    else if dt > upper then
      let nd := max (cur / p.adjustment_factor) p.min_difficulty
      (nd ≠ cur, nd, ⟨some nd, pushTime c.times t⟩)
    else (false, cur, ⟨c.diff, pushTime c.times t⟩)

/-- Modelled from the spec as amended for the 5-second gate: with the pool's
parameters (`T = 10`, `v = 30`, `K = 2`, bounds `[0.01, 1000000]`), a first
share stores the timestamp and installs the initial difficulty; a later
share with `Δ ≤ 5` doubles the difficulty capped at the maximum (reporting
no change when already capped); any `Δ > 5` changes nothing — in
particular the claimed `Δ > T*(1+v) = 13` decrease branch is dead. -/
def record_share_amended (initial t : ℚ) (c : AdjClient) :
    Bool × ℚ × AdjClient :=
  let cur := c.diff.getD initial
  match c.times with
  | [] => (false, cur, ⟨some cur, pushTime c.times t⟩)
  | _ :: _ =>
    if t - lastTime c.times ≤ 5 then
      let nd := min (cur * 2) 1000000
      if nd ≠ cur then (true, nd, ⟨some nd, pushTime c.times t⟩)
      else (false, cur, ⟨some cur, pushTime c.times t⟩)
    else (false, cur, ⟨some cur, pushTime c.times t⟩)

/-- The claimed per-client invariant: whatever difficulty is stored lies
within the configured bounds. -/
def diffWithinBounds (p : AdjParams) (c : AdjClient) : Prop :=
  ∀ x, c.diff = some x → p.min_difficulty ≤ x ∧ x ≤ p.max_difficulty

/-! ## Concrete scenario: a job the pool builds

Template at height 1 with `coinbasevalue` 50 BTC and the factory's default
coinbase message; the first session's `extranonce1` is
`pack('<I', 1) = 01000000` (`get_new_extranonce1` with counter 1). -/

/-- The coinbase the pool serializes for height 1, value 5000000000. -/
def cbDemo : List Nat := create_coinbase_tx defaultCoinbaseMessage 1 5000000000

/-- The first extranonce1 the factory hands out, as bytes. -/
def extranonce1Demo : List Nat := [1, 0, 0, 0]

/-- A miner-chosen 4-byte extranonce2. -/
def extranonce2Demo : List Nat := [0, 0, 0, 0]

/-- A byte-reversed transaction id for a template with one non-coinbase
transaction. -/
def txidDemo : List Nat := List.range 32

/-- The job the factory stores for the height-1 template with no
transactions (`merkle_branches = []`), at `bits = 0x1d00ffff`. -/
def jobDemo : Job :=
  ⟨0x20000000, List.replicate 32 0, cbDemo, [], 0x1d00ffff, 1, []⟩

/-- Factory state holding `jobDemo` under id `"j1"`, with zeroed counters,
no workers, a fresh adjuster record, and session difficulty 1. -/
def stateDemo : SubmitState :=
  ⟨[("j1", jobDemo)], ⟨0, 0, 0⟩, [], AdjClient.empty, 1⟩

/-- A well-formed `mining.submit` parameter list naming `"j1"`. -/
def submitParamsDemo : List String :=
  ["worker1", "j1", "00000000", "12345678", "00000000"]

/-- A `mining.submit` parameter list naming a job absent from the registry. -/
def staleParamsDemo : List String :=
  ["worker1", "gone", "00000000", "12345678", "00000000"]

/-! ## Theorems -/

/-- C3: the splice position the pool actually uses is NOT inside the
coinbase input script.  The serialized coinbase is 120 bytes: prefix
`version(4) | in_count(1) | prev_out_hash(32) | prev_index(4) |
script_len(1)` occupies `[0, 42)`, the input script `[42, 77)` (its length
byte at index 41 reads 35), and the 8-zero extranonce placeholder sits at
`[69, 77)`, inside the script as intended.  But `find(b'\x00'*8)` — the
splice position used by `process_submission` and `send_job_to_client` —
returns 5, inside the 32 zero bytes of the null previous-output hash, and
the whole spliced range `[5, 13)` ends before the script begins at 42;
while `send_job_to_all_clients` splits at the hardcoded offset 42, where
the 8 bytes are the height and message text, not zeros.  So at each splice
position the code uses, the claimed conjunction (inside the script AND all
eight bytes zero) fails. -/
theorem splice_position_outside_script :
    cbDemo.length = 120 ∧
    cbDemo.getD 41 0 = 35 ∧
    find8Zeros cbDemo = some 5 ∧
    5 + 8 ≤ 42 ∧
    (cbDemo.drop 42).take 8 ≠ List.replicate 8 0 ∧
    (cbDemo.drop 69).take 8 = List.replicate 8 0 ∧
    42 ≤ 69 ∧ 69 + 8 ≤ 42 + 35 := by
  refine ⟨by decide, by decide, by decide, by decide, by decide, by decide,
    by decide, by decide⟩

set_option maxRecDepth 1000000 in
/-- C2: for a job built from a template with one non-coinbase transaction,
`calculate_merkle_branches` emits NO branches (its `len > 2` level guard
skips the sibling at the root level), so folding the stored branches into
the double-SHA256 of the extranonce-spliced coinbase — exactly what
`process_submission` computes — yields the bare coinbase hash, while the
from-scratch Merkle tree over `[coinbase_hash, txid]` is the combine of
the two; the two roots differ. -/
theorem merkle_fold_differs_from_scratch_root :
    (calculate_merkle_branches (double_sha256 cbDemo) [txidDemo]).1 = [] ∧
    some (merkleFold
        (double_sha256 (spliceExtranonce cbDemo 5 extranonce1Demo
          extranonce2Demo))
        (calculate_merkle_branches (double_sha256 cbDemo) [txidDemo]).1) ≠
      calculate_merkle_root
        [double_sha256 (spliceExtranonce cbDemo 5 extranonce1Demo
          extranonce2Demo), txidDemo] := by
  refine ⟨by decide, by decide⟩

set_option maxRecDepth 1000000 in
/-- C1: `handle_submit` accepts a share whose header hash is far above the
difficulty-1 share target.  The submission is well-formed (5 params, job
`"j1"` present in the registry), yet the handler replies `True` and bumps
the VALID counter while leaving `invalid` at 0 — it never consults the
validator — although the reconstructed header's double-SHA256, read
little-endian, exceeds `int(diff1_target / 1)` (the share-target test of
`process_submission` evaluates to `false` on these bytes). -/
theorem submit_accepts_share_above_target :
    lookupJob stateDemo.jobs "j1" = some jobDemo ∧
    submitParamsDemo.length = 5 ∧
    (handle_submit (poolAdjParams 1) 0 true submitParamsDemo stateDemo).1 =
      .ok ∧
    (handle_submit (poolAdjParams 1) 0 true submitParamsDemo
      stateDemo).2.poolShares.valid = 1 ∧
    (handle_submit (poolAdjParams 1) 0 true submitParamsDemo
      stateDemo).2.poolShares.invalid = 0 ∧
    share_meets_target jobDemo extranonce1Demo extranonce2Demo
      [0x12, 0x34, 0x56, 0x78] [0, 0, 0, 0] 1 = false := by
  refine ⟨by decide, by decide, by decide, by decide, by decide, by decide⟩

/-- C6: `handle_submit` accepts a submission naming a job id absent from
the registry.  The registry holds only `"j1"`; the submission names
`"gone"`, which `process_submission` would reject as job-not-found before
any hashing — but the handler never calls it: it replies `True` and bumps
the valid counter. -/
theorem submit_accepts_unknown_job :
    lookupJob stateDemo.jobs "gone" = none ∧
    process_submission_check stateDemo.jobs "gone" extranonce1Demo
      extranonce2Demo [0x12, 0x34, 0x56, 0x78] [0, 0, 0, 0] 1 =
      .job_not_found ∧
    (handle_submit (poolAdjParams 1) 0 true staleParamsDemo stateDemo).1 =
      .ok ∧
    (handle_submit (poolAdjParams 1) 0 true staleParamsDemo
      stateDemo).2.poolShares.valid = 1 := by
  refine ⟨by decide, by decide, by decide, by decide⟩

/-- C8 counterexample: the `stratum.py` copy of `bits_to_target` applies no
mantissa clamp.  On the compact word `0x04FFFFFF` (bytes
`ff ff ff 04` little-endian) its result is `0xFFFFFF * 2^8`, while the
claimed formula clamps the mantissa to `0x7FFFFF` and yields
`0x7FFFFF * 2^8`. -/
theorem stratum_bits_to_target_lacks_clamp :
    leBytesToNat [0xff, 0xff, 0xff, 0x04] = 0x04FFFFFF ∧
    bits_to_target_stratum [0xff, 0xff, 0xff, 0x04] =
      (0xFFFFFF : ℚ) * 2 ^ 8 ∧
    bits_to_target_claim 0x04FFFFFF = 0x7FFFFF * 2 ^ 8 ∧
    ((0xFFFFFF : ℚ) * 2 ^ 8) ≠ ((0x7FFFFF * 2 ^ 8 : Nat) : ℚ) := by
  refine ⟨by decide, ?_, by decide, by norm_num⟩
  have h1 : ((0xff + 256 * (0xff + 256 * (0xff + 256 * (0x04 + 256 * 0)))) :
      Nat) >>> 24 = 4 := by decide
  have h2 : ((0xff + 256 * (0xff + 256 * (0xff + 256 * (0x04 + 256 * 0)))) :
      Nat) &&& 0xFFFFFF = 0xFFFFFF := by decide
  simp only [bits_to_target_stratum, leBytesToNat, List.foldr, h1, h2]
  norm_num

/-- C8 as amended: for every compact word whose exponent byte is at least 3,
the `mining_utils.py` copy of `bits_to_target` computes exactly the
claimed clamped formula `min(mant, 0x7FFFFF) * 2^(8*(exp-3))`; exponents
below 3 raise `ValueError` in the source (the `none` case), and the
`stratum.py` copy omits the clamp. -/
theorem mining_utils_bits_to_target_clamped (bits : Nat)
    (hexp : 3 ≤ bits >>> 24) :
    bits_to_target_mu bits = some (bits_to_target_claim bits) := by
  unfold bits_to_target_mu bits_to_target_claim
  rw [if_neg (by omega)]
  congr 1
  rw [Nat.shiftLeft_eq, Nat.one_mul]
  congr 1
  split
  · next h => omega
  · next h => omega

/-- Witness for the amended C8 theorem at the mainnet genesis compact word
`0x1d00ffff`. -/
theorem mining_utils_bits_to_target_clamped_witness :
    3 ≤ (0x1d00ffff : Nat) >>> 24 ∧
    bits_to_target_mu 0x1d00ffff = some (bits_to_target_claim 0x1d00ffff) :=
  ⟨by decide, mining_utils_bits_to_target_clamped 0x1d00ffff (by decide)⟩

/-- C5: `handle_suggest_difficulty` does not install the clamp of the
suggested value.  With bounds `[0.01, 1000000]`, session difficulty 1 and
suggestion `d = 100`, the claimed behavior installs
`clamp(100) = 100`; the handler instead discards `d`, feeds the hardcoded
`0.01` to the adjuster, installs `0.01`, pushes `mining.set_difficulty
0.01`, and replies `True`. -/
theorem suggest_difficulty_overridden :
    (handle_suggest_difficulty (poolAdjParams 1) [100] 1 ⟨some 1, []⟩).reply =
      .ok ∧
    (handle_suggest_difficulty (poolAdjParams 1) [100] 1
      ⟨some 1, []⟩).sessionDifficulty = 1 / 100 ∧
    (handle_suggest_difficulty (poolAdjParams 1) [100] 1 ⟨some 1, []⟩).notices =
      [1 / 100] ∧
    (handle_suggest_difficulty (poolAdjParams 1) [100] 1 ⟨some 1, []⟩).adj.diff =
      some (1 / 100) ∧
    clampDifficulty (poolAdjParams 1) 100 = 100 ∧
    (1 / 100 : ℚ) ≠ 100 := by
  norm_num [handle_suggest_difficulty, suggest_difficulty, poolAdjParams,
    clampDifficulty, min_def, max_def]

/-- C4 counterexample: with the pool's parameters, stored difficulty 1 and
a share arriving `Δ = 14 s` after the previous one, the claim's `Δ >
T*(1+v) = 13` branch divides the difficulty by `K = 2`, storing `1/2` —
but `record_share`, whose outer gate skips every adjustment with `Δ > 5 s`,
leaves the stored difficulty at 1 and reports no change. -/
theorem record_share_no_decrease_counterexample :
    (record_share (poolAdjParams 1) 14 ⟨some 1, [0]⟩).1 = false ∧
    (record_share (poolAdjParams 1) 14 ⟨some 1, [0]⟩).2.2.diff = some 1 ∧
    (record_share_claimspec (poolAdjParams 1) 14 ⟨some 1, [0]⟩).2.2.diff =
      some (1 / 2) ∧
    (14 : ℚ) > 10 * (1 + 30 / 100) := by
  norm_num [record_share, record_share_claimspec, check_adjust_difficulty,
    poolAdjParams, lastTime, pushTime, min_def, max_def]

/-- C4 as amended: on the pool's parameters, `record_share` behaves as the
spec's description does once the 5-second gate is added — first share
stores the time and installs the initial difficulty without change; a
share with `Δ ≤ 5` doubles the difficulty capped at the maximum (the
`Δ < T*(1−v) ∧ Δ ≤ 10` test is subsumed, since `Δ ≤ 5 < 7`); any later
gap changes nothing and the decrease branch is unreachable. -/
theorem record_share_five_second_gate (initial t : ℚ) (c : AdjClient) :
    record_share (poolAdjParams initial) t c =
      record_share_amended initial t c := by
  rcases c with ⟨diff, times⟩
  cases times with
  | nil => rfl
  | cons a l =>
    simp only [record_share, record_share_amended, check_adjust_difficulty,
      poolAdjParams, Option.getD_some]
    have h7 : (10 : ℚ) - 10 * (30 / 100) = 7 := by norm_num
    have h13 : (10 : ℚ) + 10 * (30 / 100) = 13 := by norm_num
    split_ifs with h5 hband hne hup hne2 <;> try rfl
    · exact absurd ⟨by rw [h7]; linarith, by linarith⟩ hband
    · exact absurd ⟨by rw [h7]; linarith, by linarith⟩ hband
    · exact absurd hup (by rw [h13]; push_neg; linarith)
    · exact absurd ⟨by rw [h7]; linarith, by linarith⟩ hband

/-- C9: with the pool's adjuster parameters, `record_share` never lowers a
client's difficulty: whenever the stored difficulty (and the configured
initial difficulty, used for unseen clients) lies in `[0, 1000000]` — as
it does in every state the pool can reach — the difficulty after the call
is at least the difficulty before it.  Only the capped doubling branch is
reachable, the decrease branch being dead behind the 5-second gate. -/
theorem record_share_never_lowers (initial t : ℚ) (c : AdjClient)
    (h1 : 0 ≤ initial) (h2 : initial ≤ 1000000)
    (hc : ∀ x, c.diff = some x → 0 ≤ x ∧ x ≤ 1000000) :
    get_difficulty (poolAdjParams initial) c ≤
      get_difficulty (poolAdjParams initial)
        (record_share (poolAdjParams initial) t c).2.2 := by
  have hcur : 0 ≤ c.diff.getD initial ∧ c.diff.getD initial ≤ 1000000 := by
    rcases hd : c.diff with _ | y
    · simpa using ⟨h1, h2⟩
    · simpa using hc y hd
  rcases c with ⟨diff, times⟩
  unfold record_share get_difficulty
  cases times with
  | nil => simp
  | cons a l =>
    simp only [poolAdjParams] at hcur ⊢
    by_cases h5 : t - lastTime (a :: l) ≤ 5
    · rw [if_pos h5]
      unfold check_adjust_difficulty
      simp only [Option.getD_some]
      have h7 : (10 : ℚ) - 10 * (30 / 100) = 7 := by norm_num
      rw [h7, if_pos ⟨by linarith, by linarith⟩]
      by_cases hnd :
          min (diff.getD initial * 2) 1000000 ≠ diff.getD initial
      · rw [if_pos hnd]
        simp only [Option.getD_some]
        exact le_min (by nlinarith [hcur.1]) (by simpa using hcur.2)
      · rw [if_neg hnd]
        simp
    · rw [if_neg h5]
      simp

/-- Witness for C9 at difficulty 1 and a share 2 seconds after the last. -/
theorem record_share_never_lowers_witness :
    get_difficulty (poolAdjParams 1) ⟨some 1, [0]⟩ ≤
      get_difficulty (poolAdjParams 1)
        (record_share (poolAdjParams 1) 2 ⟨some 1, [0]⟩).2.2 :=
  record_share_never_lowers 1 2 ⟨some 1, [0]⟩ (by norm_num) (by norm_num)
    (fun x hx => by
      obtain rfl : (1 : ℚ) = x := by simpa using hx
      norm_num)

/-- The adjustment check keeps a bounded record bounded. -/
theorem check_adjust_difficulty_keeps_bounds (p : AdjParams) (c : AdjClient)
    (dt : ℚ) (h0 : 0 ≤ p.min_difficulty) (hK : 1 ≤ p.adjustment_factor)
    (hmm : p.min_difficulty ≤ p.max_difficulty)
    (hcur : p.min_difficulty ≤ c.diff.getD p.initial_difficulty ∧
      c.diff.getD p.initial_difficulty ≤ p.max_difficulty)
    (hc : diffWithinBounds p c) :
    diffWithinBounds p (check_adjust_difficulty p c dt).2.2 := by
  intro x hx
  simp only [check_adjust_difficulty] at hx
  set cur := c.diff.getD p.initial_difficulty with hcurdef
  split_ifs at hx with hb1 hne1 hb2 hne2
  · obtain rfl : min (cur * p.adjustment_factor) p.max_difficulty = x := by
      simpa using hx
    refine ⟨le_min ?_ hmm, min_le_right _ _⟩
    exact le_trans hcur.1
      (le_mul_of_one_le_right (le_trans h0 hcur.1) hK)
  · exact hc x hx
  · obtain rfl : max (cur / p.adjustment_factor) p.min_difficulty = x := by
      simpa using hx
    refine ⟨le_max_right _ _, max_le ?_ hmm⟩
    exact le_trans (div_le_self (le_trans h0 hcur.1) hK) hcur.2
  · exact hc x hx
  · exact hc x hx

/-- `record_share` keeps a bounded record bounded. -/
theorem record_share_keeps_bounds (p : AdjParams) (t : ℚ) (c : AdjClient)
    (h0 : 0 ≤ p.min_difficulty)
    (h1 : p.min_difficulty ≤ p.initial_difficulty)
    (h2 : p.initial_difficulty ≤ p.max_difficulty)
    (hK : 1 ≤ p.adjustment_factor) (hc : diffWithinBounds p c) :
    diffWithinBounds p (record_share p t c).2.2 := by
  have hmm : p.min_difficulty ≤ p.max_difficulty := le_trans h1 h2
  have hcur : p.min_difficulty ≤ c.diff.getD p.initial_difficulty ∧
      c.diff.getD p.initial_difficulty ≤ p.max_difficulty := by
    rcases hd : c.diff with _ | y
    · simpa using ⟨h1, h2⟩
    · simpa using hc y hd
  rcases c with ⟨diff, times⟩
  unfold record_share
  cases times with
  | nil =>
    intro x hx
    obtain rfl : diff.getD p.initial_difficulty = x := by simpa using hx
    exact hcur
  | cons a l =>
    simp only
    by_cases h5 : t - lastTime (a :: l) ≤ 5
    · rw [if_pos h5]
      refine check_adjust_difficulty_keeps_bounds p _ _ h0 hK hmm ?_ ?_
      · simpa using hcur
      · intro x hx
        obtain rfl : diff.getD p.initial_difficulty = x := by simpa using hx
        exact hcur
    · rw [if_neg h5]
      intro x hx
      obtain rfl : diff.getD p.initial_difficulty = x := by simpa using hx
      exact hcur

/-- `suggest_difficulty` always stores a clamped, hence bounded, value. -/
theorem suggest_difficulty_keeps_bounds (p : AdjParams) (d : ℚ)
    (c : AdjClient) (hmm : p.min_difficulty ≤ p.max_difficulty) :
    diffWithinBounds p (suggest_difficulty p d c).2.2 := by
  intro x hx
  obtain rfl : max (min d p.max_difficulty) p.min_difficulty = x := by
    simpa [suggest_difficulty] using hx
  exact ⟨le_max_right _ _, max_le (min_le_right _ _) hmm⟩

/-- The inactivity sweep keeps a bounded record bounded. -/
theorem check_inactive_client_keeps_bounds (p : AdjParams) (now : ℚ)
    (c : AdjClient) (h0 : 0 ≤ p.min_difficulty)
    (h1 : p.min_difficulty ≤ p.initial_difficulty)
    (h2 : p.initial_difficulty ≤ p.max_difficulty)
    (hc : diffWithinBounds p c) :
    diffWithinBounds p (check_inactive_client p now c) := by
  have hmm : p.min_difficulty ≤ p.max_difficulty := le_trans h1 h2
  have hcur : p.min_difficulty ≤ c.diff.getD p.initial_difficulty ∧
      c.diff.getD p.initial_difficulty ≤ p.max_difficulty := by
    rcases hd : c.diff with _ | y
    · simpa using ⟨h1, h2⟩
    · simpa using hc y hd
  rcases c with ⟨diff, times⟩
  unfold check_inactive_client
  cases times with
  | nil => exact hc
  | cons a l =>
    simp only
    split_ifs with ht hd
    · intro x hx
      obtain rfl : max (diff.getD p.initial_difficulty / 2) p.min_difficulty
          = x := by simpa using hx
      refine ⟨le_max_right _ _, max_le ?_ hmm⟩
      exact le_trans
        (div_le_self (le_trans h0 hcur.1) (by norm_num)) hcur.2
    · exact hc
    · exact hc

/-- Any sequence of adjuster calls keeps a bounded record bounded. -/
theorem applyOps_keeps_bounds (p : AdjParams)
    (h0 : 0 ≤ p.min_difficulty)
    (h1 : p.min_difficulty ≤ p.initial_difficulty)
    (h2 : p.initial_difficulty ≤ p.max_difficulty)
    (hK : 1 ≤ p.adjustment_factor) (ops : List AdjOp) (c : AdjClient)
    (hc : diffWithinBounds p c) :
    diffWithinBounds p (applyOps p c ops) := by
  induction ops generalizing c with
  | nil => exact hc
  | cons op rest ih =>
    refine ih _ ?_
    cases op with
    | record t => exact record_share_keeps_bounds p t c h0 h1 h2 hK hc
    | suggest d =>
      exact suggest_difficulty_keeps_bounds p d c (le_trans h1 h2)
    | sweep now => exact check_inactive_client_keeps_bounds p now c h0 h1 h2 hc

/-- C7: for any adjuster whose configured bounds are sane (a nonnegative
minimum, and an initial difficulty within `[min, max]` — as with the
pool's `[0.01, 1000000]` and any CLI initial difficulty inside them) and
whose adjustment factor is at least 1, every difficulty stored for a
client after any finite sequence of `record_share`, `suggest_difficulty`
and `check_inactive_clients` calls lies within
`[min_difficulty, max_difficulty]`. -/
theorem difficulty_stays_in_bounds (p : AdjParams)
    (h0 : 0 ≤ p.min_difficulty)
    (h1 : p.min_difficulty ≤ p.initial_difficulty)
    (h2 : p.initial_difficulty ≤ p.max_difficulty)
    (hK : 1 ≤ p.adjustment_factor)
    (ops : List AdjOp) (x : ℚ)
    (hx : (applyOps p AdjClient.empty ops).diff = some x) :
    p.min_difficulty ≤ x ∧ x ≤ p.max_difficulty :=
  applyOps_keeps_bounds p h0 h1 h2 hK ops AdjClient.empty
    (fun y hy => by simp [AdjClient.empty] at hy) x hx

/-- Witness for C7: the pool's parameters with initial difficulty 1, one
recorded share. -/
theorem difficulty_stays_in_bounds_witness :
    (0 : ℚ) ≤ (poolAdjParams 1).min_difficulty ∧
    ((poolAdjParams 1).min_difficulty ≤ 1 ∧
      (1 : ℚ) ≤ (poolAdjParams 1).max_difficulty) :=
  ⟨by norm_num [poolAdjParams],
   difficulty_stays_in_bounds (poolAdjParams 1)
     (by norm_num [poolAdjParams]) (by norm_num [poolAdjParams])
     (by norm_num [poolAdjParams]) (by norm_num [poolAdjParams])
     [.record 0] 1 rfl⟩

/-- C10: a `mining.submit` from an unauthorized session, or carrying fewer
than 5 parameters, is answered with a JSON-RPC error (`-32500`
respectively `-32602`) and the handler returns before touching any share
state: the job registry, the pool and per-worker counters, the client's
adjuster record and the session difficulty are exactly as before. -/
theorem submit_rejected_leaves_state_unchanged (p : AdjParams) (now : ℚ)
    (authorized : Bool) (params : List String) (st : SubmitState)
    (h : authorized = false ∨ params.length < 5) :
    ((handle_submit p now authorized params st).1).isErr = true ∧
    (handle_submit p now authorized params st).2 = st := by
  unfold handle_submit
  rcases h with h | h
  · subst h
    simp [Reply.isErr]
  · cases authorized with
    | false => simp [Reply.isErr]
    | true => simp [Reply.isErr, h]

/-- Witness for C10: an unauthorized submission with well-formed params. -/
theorem submit_rejected_leaves_state_unchanged_witness :
    (false = false ∨ staleParamsDemo.length < 5) ∧
    (((handle_submit (poolAdjParams 1) 0 false staleParamsDemo
        stateDemo).1).isErr = true ∧
      (handle_submit (poolAdjParams 1) 0 false staleParamsDemo stateDemo).2 =
        stateDemo) :=
  ⟨Or.inl rfl,
   submit_rejected_leaves_state_unchanged (poolAdjParams 1) 0 false
     staleParamsDemo stateDemo (Or.inl rfl)⟩

end JoulePool
